import Mathlib

/-!
Shallow embedding of `src/extension.ts` (merge-branch-helper).

The extension shells out to git and wires the results into a VS Code UI.
We embed:
* the JavaScript string operations the code relies on (`trim`, `split('\n')`,
  `includes`, `replace` with a string pattern, default `sort`), modelled on
  `List Char` / `String`;
* the branch-listing pipeline (`getRemoteBranches`, `getLocalBranches`,
  `getAvailableBranches`) and `checkRemoteBranchExists`;
* the completion-event state machine of `executeCommand` (timeout timer,
  `exec` callback, `exit` event, `error` event, spawn exception), as a step
  function over an explicit state, run on an arbitrary sequence of events;
* the `mergeToBranch` command workflow, as a pure function of an environment
  that fixes the module state (`lastSelectedBranch`), the user's confirmation
  answer, and a deterministic oracle giving each git command's result.  The
  workflow returns its outcome, the sequence of git commands it issued, and
  whether a push-failure warning was shown.
-/

/-- JavaScript `String.prototype.trim` on a character list: drop whitespace
from both ends. -/
def trimChars (l : List Char) : List Char :=
  ((l.dropWhile Char.isWhitespace).reverse.dropWhile Char.isWhitespace).reverse

/-- JavaScript `String.prototype.split('\n')` on a character list. -/
def splitNLChars : List Char → List (List Char)
  | [] => [[]]
  | c :: rest =>
    match splitNLChars rest with
    | [] => [[c]]
    | h :: t => if c = '\n' then [] :: h :: t else (c :: h) :: t

/-- Boolean test that the first list is an initial segment of the second. -/
def isPrefixChars : List Char → List Char → Bool
  | [], _ => true
  | _ :: _, [] => false
  | p :: ps, c :: cs => if p = c then isPrefixChars ps cs else false

/-- JavaScript `String.prototype.includes` on character lists: `pat` occurs
as a contiguous substring of the first argument. -/
def containsSubChars : List Char → List Char → Bool
  | [], pat => pat.isEmpty
  | c :: rest, pat => isPrefixChars pat (c :: rest) || containsSubChars rest pat

/-- JavaScript `String.prototype.replace` with a plain string pattern:
replace the first occurrence of `pat` by `rep` (no occurrence: unchanged). -/
def replaceFirstChars : List Char → List Char → List Char → List Char
  | [], pat, rep => if pat.isEmpty then rep else []
  | c :: rest, pat, rep =>
    if isPrefixChars pat (c :: rest) then rep ++ (c :: rest).drop pat.length
    else c :: replaceFirstChars rest pat rep

/-- `trim` lifted to `String`. -/
def jsTrim (s : String) : String := ⟨trimChars s.data⟩

/-- `split('\n')` lifted to `String`. -/
def jsSplitLines (s : String) : List String := (splitNLChars s.data).map String.mk

/-- `includes` lifted to `String`. -/
def jsIncludes (s pat : String) : Bool := containsSubChars s.data pat.data

/-- `replace(pat, rep)` (first occurrence only) lifted to `String`. -/
def jsReplaceFirst (s pat rep : String) : String :=
  ⟨replaceFirstChars s.data pat.data rep.data⟩

/-- Lexicographic comparison of character lists by code point, the order
JavaScript's default `Array.prototype.sort` uses on strings. -/
def charListLe : List Char → List Char → Bool
  | [], _ => true
  | _ :: _, [] => false
  | a :: as, b :: bs =>
    if a.toNat = b.toNat then charListLe as bs else decide (a.toNat < b.toNat)

/-- Lexicographic string comparison (JavaScript default sort order). -/
def strLe (a b : String) : Bool := charListLe a.data b.data

/-- Insert a string into a list, keeping it sorted under `strLe`. -/
def insertLe (a : String) : List String → List String
  | [] => [a]
  | b :: rest => if strLe a b then a :: b :: rest else b :: insertLe a rest

/-- Sort a list of strings under `strLe`; models JavaScript's default
`Array.prototype.sort()` on a duplicate-free string array. -/
def sortLe : List String → List String
  | [] => []
  | a :: rest => insertLe a (sortLe rest)

/-- Deduplication keeping first occurrences in order, with an accumulator of
names already seen; models iteration order of a JavaScript `Set`. -/
def dedupKeepFirst (seen : List String) : List String → List String
  | [] => []
  | a :: rest =>
    if a ∈ seen then dedupKeepFirst seen rest
    else a :: dedupKeepFirst (a :: seen) rest

/-- `[...new Set(l)]` : first-occurrence deduplication. -/
def jsSetDedup (l : List String) : List String := dedupKeepFirst [] l

/-- `getRemoteBranches` from `extension.ts` as a function of the stdout of
`git branch -r`: split into lines, trim each, keep nonempty lines not
containing `HEAD`, then delete the first occurrence of `origin/`. -/
def getRemoteBranches (stdout : String) : List String :=
  ((((jsSplitLines stdout).map jsTrim).filter
      (fun b => !(b == "") && !(jsIncludes b "HEAD"))).map
    (fun b => jsReplaceFirst b "origin/" ""))

/-- `getLocalBranches` from `extension.ts` as a function of the stdout of
`git branch`: split into lines, trim, delete the first occurrence of `* `,
keep nonempty results. -/
def getLocalBranches (stdout : String) : List String :=
  (((jsSplitLines stdout).map (fun b => jsReplaceFirst (jsTrim b) "* " ""))).filter
    (fun b => !(b == ""))

/-- `getAvailableBranches` from `extension.ts` as a function of the two
stdouts: `[...new Set([...remoteBranches, ...localBranches])].sort()`. -/
def getAvailableBranches (remoteOut localOut : String) : List String :=
  sortLe (jsSetDedup (getRemoteBranches remoteOut ++ getLocalBranches localOut))

/-- Written from the words of claim C4, for comparison with
`getAvailableBranches`: the union of the local branch names and the remote
branch names with the `origin/` prefix (an initial segment only) stripped
and the symbolic HEAD pointer line (`origin/HEAD -> ...`) discarded,
deduplicated and sorted. -/
def availableBranchesPerClaim (remoteOut localOut : String) : List String :=
  sortLe (jsSetDedup
    (((((jsSplitLines remoteOut).map jsTrim).filter
          (fun b => !(b == "") && !(jsIncludes b " -> "))).map
        (fun b =>
          if isPrefixChars "origin/".data b.data then
            String.mk (b.data.drop "origin/".data.length)
          else b))
      ++ getLocalBranches localOut))

/-- The distinguishable failure kinds of `executeCommand`: timeout, an error
passed to the `exec` callback, a nonzero (or null) exit code seen by the
`exit` handler, a process `error` event, and a synchronous spawn exception. -/
inductive ExecFailure where
  | timedOut : ExecFailure
  | cbError (msg : String) : ExecFailure
  | exitNonZero (code : Option Int) : ExecFailure
  | procError (msg : String) : ExecFailure
  | spawnThrown (msg : String) : ExecFailure
deriving DecidableEq

/-- The error message carried by a failure, as the workflow reads
`error.message`. -/
def ExecFailure.message : ExecFailure → String
  | .timedOut => "命令执行超时"
  | .cbError m => m
  | .exitNonZero _ => "进程退出"
  | .procError m => m
  | .spawnThrown m => m

/-- One completion event that `executeCommand`'s promise executor can
observe, with the data that event carries. -/
inductive ExecEvent where
  | timeoutFire : ExecEvent
  | callback (err : Option String) (stdout stderrOut : String) : ExecEvent
  | exited (code : Option Int) : ExecEvent
  | procErrored (msg : String) : ExecEvent
  | spawnThrow (msg : String) : ExecEvent
deriving DecidableEq

deriving instance DecidableEq for Except

/-- State of one `executeCommand` invocation: the `isCompleted` flag, whether
the timeout timer is still pending (not yet fired and not cleared), and the
list of settlements (`resolve`/`reject` calls) performed so far. -/
structure ExecState where
  completed : Bool
  timerActive : Bool
  settles : List (Except ExecFailure (String × String))
deriving DecidableEq

/-- State at promise construction: not completed, timer armed, no
settlement. -/
def initExecState : ExecState := ⟨false, true, []⟩

/-- One event handled exactly as the corresponding handler in
`executeCommand` handles it (guard on `isCompleted`, `clearTimeout`, then
`resolve`/`reject`).  A cleared timer never fires, so `timeoutFire` is a
no-op once `timerActive` is false. -/
def execStep (s : ExecState) (e : ExecEvent) : ExecState :=
  match e with
  | .timeoutFire =>
    if s.timerActive then
      if s.completed then { s with timerActive := false }
      else ⟨true, false, s.settles ++ [Except.error ExecFailure.timedOut]⟩
    else s
  | .callback err out errOut =>
    if s.completed then s
    else ⟨true, false, s.settles ++
      [match err with
       | some m => Except.error (ExecFailure.cbError m)
       | none => Except.ok (out, errOut)]⟩
  | .exited code =>
    if s.completed then s
    else ⟨true, false, s.settles ++
      [if code = some 0 then Except.ok ("", "")
       else Except.error (ExecFailure.exitNonZero code)]⟩
  | .procErrored m =>
    if s.completed then s
    else ⟨true, false, s.settles ++ [Except.error (ExecFailure.procError m)]⟩
  | .spawnThrow m =>
    if s.completed then s
    else ⟨true, false, s.settles ++ [Except.error (ExecFailure.spawnThrown m)]⟩

/-- Run one `executeCommand` invocation over a sequence of completion
events. -/
def runExec (evs : List ExecEvent) : ExecState := evs.foldl execStep initExecState

/-- `checkRemoteBranchExists` from `extension.ts`, as a function of the
result of `git branch -r`: the `try`/`catch` turns every failure into
`false`; on success it is `stdout.includes('origin/' + branch)`. -/
def checkRemoteBranchExists (res : Except ExecFailure (String × String))
    (branch : String) : Bool :=
  match res with
  | .error _ => false
  | .ok (out, _) => jsIncludes out ("origin/" ++ branch)

/-- The git commands the `mergeToBranch` command handler can issue. -/
inductive Cmd where
  | showCurrent : Cmd
  | branchR : Cmd
  | statusPorcelain : Cmd
  | checkout (branch : String) : Cmd
  | pull (branch : String) : Cmd
  | merge (branch : String) : Cmd
  | push (branch : String) : Cmd
deriving DecidableEq

/-- The exact command line each `Cmd` stands for in `extension.ts`. -/
def Cmd.render : Cmd → String
  | .showCurrent => "git branch --show-current"
  | .branchR => "git branch -r"
  | .statusPorcelain => "git status --porcelain"
  | .checkout b => "git checkout " ++ b
  | .pull b => "git pull origin " ++ b
  | .merge b => "git merge " ++ b
  | .push b => "git push origin " ++ b

/-- Environment of one run of the `mergeToBranch` command handler: whether a
workspace folder is open, the module-level `lastSelectedBranch`
(
`undefined` modelled as `none`), the user's answer to the confirmation
dialog, and a deterministic oracle giving the result of each git command
(each distinct command is executed at most once per run). -/
structure MergeEnv where
  hasWorkspace : Bool
  lastSelectedBranch : Option String
  confirmAccepted : Bool
  run : Cmd → Except ExecFailure (String × String)

/-- How one run of the command handler ends: the success message, the error
message shown by the catch-all handler, or a silent abort at the
confirmation dialog. -/
inductive Outcome where
  | success (msg : String) : Outcome
  | failure (msg : String) : Outcome
  | cancelled : Outcome
deriving DecidableEq

/-- Result of one run: the outcome, the git commands issued in order, and
whether the push-failure warning was shown. -/
structure MergeResult where
  outcome : Outcome
  trace : List Cmd
  pushWarned : Bool
deriving DecidableEq

/-- The tail of the workflow from the `git merge` step: merge the original
branch, attempt the push (failure only warns), then checkout back to the
original branch; `pre` is the command trace issued so far. -/
def runMergePushRestore (env : MergeEnv) (cur target : String)
    (pre : List Cmd) : MergeResult :=
  match env.run (Cmd.merge cur) with
  | .error e =>
    ⟨.failure ("合并失败: " ++ e.message), pre ++ [Cmd.merge cur], false⟩
  | .ok _ =>
    match env.run (Cmd.push target) with
    | .error _ =>
      match env.run (Cmd.checkout cur) with
      | .error e2 =>
        ⟨.failure e2.message,
          pre ++ [Cmd.merge cur, Cmd.push target, Cmd.checkout cur], true⟩
      | .ok _ =>
        ⟨.success ("成功将 " ++ cur ++ " 合并到 " ++ target),
          pre ++ [Cmd.merge cur, Cmd.push target, Cmd.checkout cur], true⟩
    | .ok _ =>
      match env.run (Cmd.checkout cur) with
      | .error e2 =>
        ⟨.failure e2.message,
          pre ++ [Cmd.merge cur, Cmd.push target, Cmd.checkout cur], false⟩
      | .ok _ =>
        ⟨.success ("成功将 " ++ cur ++ " 合并到 " ++ target),
          pre ++ [Cmd.merge cur, Cmd.push target, Cmd.checkout cur], false⟩

/-- The pull stage: if the target branch exists on the remote, pull it; on
pull failure checkout back to the original branch and fail (the rollback
checkout's own failure propagates instead if it also fails); otherwise
continue with `runMergePushRestore`. -/
def runPullStage (env : MergeEnv) (cur target : String)
    (pre : List Cmd) : MergeResult :=
  if checkRemoteBranchExists (env.run Cmd.branchR) target then
    match env.run (Cmd.pull target) with
    | .error pe =>
      match env.run (Cmd.checkout cur) with
      | .error ce =>
        ⟨.failure ce.message, pre ++ [Cmd.pull target, Cmd.checkout cur], false⟩
      | .ok _ =>
        ⟨.failure ("拉取最新代码失败: " ++ pe.message),
          pre ++ [Cmd.pull target, Cmd.checkout cur], false⟩
    | .ok _ => runMergePushRestore env cur target (pre ++ [Cmd.pull target])
  else runMergePushRestore env cur target pre

/-- The `merge-branch-helper.mergeToBranch` command handler of
`extension.ts` as a pure function of its environment: resolve the current
branch, check it differs from the selected target, check a target is
selected, query remote existence (`git branch -r`, never failing), ask for
confirmation, refuse on a dirty working tree, checkout the target, then run
the pull / merge / push / restore stages. -/
def mergeToBranch (env : MergeEnv) : MergeResult :=
  if env.hasWorkspace then
    match env.run Cmd.showCurrent with
    | .error e => ⟨.failure e.message, [Cmd.showCurrent], false⟩
    | .ok (curOut, _) =>
      if env.lastSelectedBranch = some (jsTrim curOut) then
        ⟨.failure "不能合并到当前分支", [Cmd.showCurrent], false⟩
      else
        match env.lastSelectedBranch with
        | none => ⟨.failure "未选择目标分支", [Cmd.showCurrent], false⟩
        | some target =>
          if target = "" then
            ⟨.failure "未选择目标分支", [Cmd.showCurrent], false⟩
          else
            if env.confirmAccepted then
              match env.run Cmd.statusPorcelain with
              | .error e =>
                ⟨.failure e.message,
                  [Cmd.showCurrent, Cmd.branchR, Cmd.statusPorcelain], false⟩
              | .ok (statusOut, _) =>
                if jsTrim statusOut = "" then
                  match env.run (Cmd.checkout target) with
                  | .error e =>
                    ⟨.failure e.message,
                      [Cmd.showCurrent, Cmd.branchR, Cmd.statusPorcelain,
                        Cmd.checkout target], false⟩
                  | .ok _ =>
                    runPullStage env (jsTrim curOut) target
                      [Cmd.showCurrent, Cmd.branchR, Cmd.statusPorcelain,
                        Cmd.checkout target]
                else
                  ⟨.failure "有未提交的更改，请先提交或暂存更改",
                    [Cmd.showCurrent, Cmd.branchR, Cmd.statusPorcelain], false⟩
            else ⟨.cancelled, [Cmd.showCurrent, Cmd.branchR], false⟩
  else ⟨.failure "没有打开的工作区", [], false⟩

/-- Environment exercising claim C2: the selected target `develop` is absent
from the `git branch -r` output, every command succeeds. -/
def envC2 : MergeEnv :=
  { hasWorkspace := true, lastSelectedBranch := some "develop",
    confirmAccepted := true,
    run := fun c =>
      match c with
      | Cmd.showCurrent => Except.ok ("feature\n", "")
      | Cmd.branchR => Except.ok ("  origin/main\n", "")
      | _ => Except.ok ("", "") }

/-- Environment exercising claim C3: `develop` exists remotely and the pull
of it times out; everything else succeeds. -/
def envC3 : MergeEnv :=
  { hasWorkspace := true, lastSelectedBranch := some "develop",
    confirmAccepted := true,
    run := fun c =>
      match c with
      | Cmd.showCurrent => Except.ok ("feature\n", "")
      | Cmd.branchR => Except.ok ("  origin/develop\n", "")
      | Cmd.pull _ => Except.error ExecFailure.timedOut
      | _ => Except.ok ("", "") }

/-- Environment exercising claim C7: the working tree is dirty
(`git status --porcelain` prints a modified file). -/
def envC7 : MergeEnv :=
  { hasWorkspace := true, lastSelectedBranch := some "develop",
    confirmAccepted := true,
    run := fun c =>
      match c with
      | Cmd.showCurrent => Except.ok ("feature\n", "")
      | Cmd.statusPorcelain => Except.ok (" M a.txt\n", "")
      | _ => Except.ok ("", "") }

/-- Environment exercising claim C8: the current branch equals the selected
target branch. -/
def envC8 : MergeEnv :=
  { hasWorkspace := true, lastSelectedBranch := some "feature",
    confirmAccepted := true,
    run := fun c =>
      match c with
      | Cmd.showCurrent => Except.ok ("feature\n", "")
      | _ => Except.ok ("", "") }

/-- Environment exercising claim C9's corner: the merge succeeds, the push
fails, and the final checkout back to the original branch also fails. -/
def envC9 : MergeEnv :=
  { hasWorkspace := true, lastSelectedBranch := some "develop",
    confirmAccepted := true,
    run := fun c =>
      match c with
      | Cmd.showCurrent => Except.ok ("feature\n", "")
      | Cmd.push _ => Except.error (ExecFailure.cbError "remote rejected")
      | Cmd.checkout "feature" => Except.error (ExecFailure.cbError "checkout failed")
      | _ => Except.ok ("", "") }

/-- Environment exercising the amended claim C9: the merge succeeds, the
push fails, and the final checkout back succeeds. -/
def envC9w : MergeEnv :=
  { hasWorkspace := true, lastSelectedBranch := some "develop",
    confirmAccepted := true,
    run := fun c =>
      match c with
      | Cmd.showCurrent => Except.ok ("feature\n", "")
      | Cmd.push _ => Except.error (ExecFailure.cbError "remote rejected")
      | _ => Except.ok ("", "") }

theorem charListLe_trans (a : List Char) : ∀ b c : List Char,
    charListLe a b = true → charListLe b c = true → charListLe a c = true := by
  induction a with
  | nil => intro b c _ _; rfl
  | cons x xs ih =>
    intro b c hab hbc
    cases b with
    | nil => simp [charListLe] at hab
    | cons y ys =>
      cases c with
      | nil => simp [charListLe] at hbc
      | cons z zs =>
        simp only [charListLe] at hab hbc ⊢
        by_cases hxy : x.toNat = y.toNat
        · by_cases hyz : y.toNat = z.toNat
          · rw [if_pos hxy] at hab
            rw [if_pos hyz] at hbc
            rw [if_pos (by omega : x.toNat = z.toNat)]
            exact ih ys zs hab hbc
          · rw [if_neg hyz, decide_eq_true_eq] at hbc
            rw [if_neg (by omega : ¬ x.toNat = z.toNat), decide_eq_true_eq]
            omega
        · rw [if_neg hxy, decide_eq_true_eq] at hab
          by_cases hyz : y.toNat = z.toNat
          · rw [if_neg (by omega : ¬ x.toNat = z.toNat), decide_eq_true_eq]
            omega
          · rw [if_neg hyz, decide_eq_true_eq] at hbc
            rw [if_neg (by omega : ¬ x.toNat = z.toNat), decide_eq_true_eq]
            omega

theorem charListLe_total (a : List Char) : ∀ b : List Char,
    charListLe a b = true ∨ charListLe b a = true := by
  induction a with
  | nil => intro b; left; rfl
  | cons x xs ih =>
    intro b
    cases b with
    | nil => right; rfl
    | cons y ys =>
      simp only [charListLe]
      by_cases hxy : x.toNat = y.toNat
      · simp only [hxy, if_true]
        simpa using ih ys
      · have hyx : ¬ y.toNat = x.toNat := fun h => hxy h.symm
        simp only [hxy, hyx, if_false, decide_eq_true_eq]
        omega

theorem strLe_trans {a b c : String} (hab : strLe a b = true)
    (hbc : strLe b c = true) : strLe a c = true :=
  charListLe_trans a.data b.data c.data hab hbc

theorem strLe_total (a b : String) : strLe a b = true ∨ strLe b a = true :=
  charListLe_total a.data b.data

theorem mem_insertLe (a x : String) : ∀ l : List String,
    (x ∈ insertLe a l ↔ x = a ∨ x ∈ l) := by
  intro l
  induction l with
  | nil => simp [insertLe]
  | cons b rest ih =>
    simp only [insertLe]
    by_cases h : strLe a b = true
    · rw [if_pos h]
      simp [List.mem_cons]
    · rw [if_neg h]
      simp only [List.mem_cons, ih]
      tauto

theorem insertLe_perm (a : String) : ∀ l : List String,
    (insertLe a l).Perm (a :: l) := by
  intro l
  induction l with
  | nil => simp [insertLe]
  | cons b rest ih =>
    simp only [insertLe]
    by_cases h : strLe a b = true
    · rw [if_pos h]
    · rw [if_neg h]
      exact (ih.cons b).trans (List.Perm.swap a b rest)


theorem sortLe_perm : ∀ l : List String, (sortLe l).Perm l := by
  intro l
  induction l with
  | nil => simp [sortLe]
  | cons a rest ih =>
    exact (insertLe_perm a (sortLe rest)).trans (ih.cons a)

theorem sorted_insertLe (a : String) : ∀ l : List String,
    List.Pairwise (fun u v => strLe u v = true) l →
    List.Pairwise (fun u v => strLe u v = true) (insertLe a l) := by
  intro l
  induction l with
  | nil => intro _; simp [insertLe]
  | cons b rest ih =>
    intro hp
    rcases List.pairwise_cons.mp hp with ⟨hb, hrest⟩
    simp only [insertLe]
    by_cases h : strLe a b = true
    · rw [if_pos h]
      refine List.pairwise_cons.mpr ⟨?_, hp⟩
      intro x hx
      rcases List.mem_cons.mp hx with rfl | hx'
      · exact h
      · exact strLe_trans h (hb x hx')
    · have hba : strLe b a = true := (strLe_total a b).resolve_left h
      rw [if_neg h]
      refine List.pairwise_cons.mpr ⟨?_, ih hrest⟩
      intro x hx
      rcases (mem_insertLe a x rest).mp hx with rfl | hx'
      · exact hba
      · exact hb x hx'

theorem sorted_sortLe : ∀ l : List String,
    List.Pairwise (fun u v => strLe u v = true) (sortLe l) := by
  intro l
  induction l with
  | nil => simp [sortLe]
  | cons a rest ih => exact sorted_insertLe a (sortLe rest) ih

theorem mem_dedupKeepFirst (x : String) : ∀ (l seen : List String),
    (x ∈ dedupKeepFirst seen l ↔ x ∈ l ∧ x ∉ seen) := by
  intro l
  induction l with
  | nil => intro seen; simp [dedupKeepFirst]
  | cons a rest ih =>
    intro seen
    simp only [dedupKeepFirst]
    by_cases h : a ∈ seen
    · rw [if_pos h, ih]
      constructor
      · rintro ⟨hx, hns⟩
        exact ⟨List.mem_cons_of_mem a hx, hns⟩
      · rintro ⟨hx, hns⟩
        rcases List.mem_cons.mp hx with rfl | hx'
        · exact absurd h hns
        · exact ⟨hx', hns⟩
    · rw [if_neg h]
      constructor
      · intro hx
        rcases List.mem_cons.mp hx with rfl | hx'
        · exact ⟨List.mem_cons_self x rest, h⟩
        · rcases (ih (a :: seen)).mp hx' with ⟨hr, hns⟩
          exact ⟨List.mem_cons_of_mem a hr,
            fun hc => hns (List.mem_cons_of_mem a hc)⟩
      · rintro ⟨hx, hns⟩
        rcases List.mem_cons.mp hx with rfl | hx'
        · exact List.mem_cons_self x _
        · by_cases hxa : x = a
          · subst hxa
            exact List.mem_cons_self x _
          · refine List.mem_cons_of_mem a ((ih (a :: seen)).mpr ⟨hx', fun hc => ?_⟩)
            rcases List.mem_cons.mp hc with h1 | h2
            · exact hxa h1
            · exact hns h2

theorem nodup_dedupKeepFirst : ∀ (l seen : List String),
    (dedupKeepFirst seen l).Nodup := by
  intro l
  induction l with
  | nil => intro seen; simp [dedupKeepFirst]
  | cons a rest ih =>
    intro seen
    simp only [dedupKeepFirst]
    by_cases h : a ∈ seen
    · rw [if_pos h]
      exact ih seen
    · rw [if_neg h, List.nodup_cons]
      refine ⟨fun hc => ?_, ih (a :: seen)⟩
      exact ((mem_dedupKeepFirst a rest (a :: seen)).mp hc).2 (List.mem_cons_self a seen)

theorem mem_jsSetDedup (x : String) (l : List String) :
    x ∈ jsSetDedup l ↔ x ∈ l := by
  simpa [jsSetDedup] using mem_dedupKeepFirst x l []

theorem nodup_jsSetDedup (l : List String) : (jsSetDedup l).Nodup :=
  nodup_dedupKeepFirst l []

theorem mem_sortLe (x : String) (l : List String) : x ∈ sortLe l ↔ x ∈ l :=
  (sortLe_perm l).mem_iff

theorem nodup_sortLe (l : List String) (h : l.Nodup) : (sortLe l).Nodup :=
  (sortLe_perm l).symm.nodup h

theorem mem_getAvailableBranches (remoteOut localOut b : String) :
    b ∈ getAvailableBranches remoteOut localOut ↔
      b ∈ getRemoteBranches remoteOut ∨ b ∈ getLocalBranches localOut := by
  rw [getAvailableBranches, mem_sortLe, mem_jsSetDedup, List.mem_append]

theorem execStep_done (s : ExecState) (e : ExecEvent)
    (h1 : s.completed = true) (h2 : s.timerActive = false) :
    execStep s e = s := by
  cases e <;> simp [execStep, h1, h2]

theorem foldl_execStep_done (s : ExecState)
    (h1 : s.completed = true) (h2 : s.timerActive = false) :
    ∀ l : List ExecEvent, List.foldl execStep s l = s := by
  intro l
  induction l with
  | nil => rfl
  | cons e rest ih => rw [List.foldl_cons, execStep_done s e h1 h2, ih]

theorem execStep_init (e : ExecEvent) :
    (execStep initExecState e).completed = true
    ∧ (execStep initExecState e).timerActive = false
    ∧ (execStep initExecState e).settles.length = 1 := by
  cases e <;> simp [execStep, initExecState]

/-- Claim C4 (amended): for every pair of git outputs, `getAvailableBranches`
returns a lexicographically sorted sequence with no duplicate names, whose
members are exactly the union of the local branch names and the remote
branch names with the first occurrence of `origin/` removed and every
line containing `HEAD` as a substring discarded. -/
theorem getAvailableBranches_sorted_nodup_union (remoteOut localOut : String) :
    List.Pairwise (fun a b => strLe a b = true ∧ a ≠ b)
      (getAvailableBranches remoteOut localOut)
    ∧ ∀ b : String, (b ∈ getAvailableBranches remoteOut localOut ↔
        b ∈ getRemoteBranches remoteOut ∨ b ∈ getLocalBranches localOut) := by
  constructor
  · have hs := sorted_sortLe
      (jsSetDedup (getRemoteBranches remoteOut ++ getLocalBranches localOut))
    have hn : (getAvailableBranches remoteOut localOut).Nodup :=
      nodup_sortLe _ (nodup_jsSetDedup _)
    exact List.Pairwise.and hs hn
  · intro b
    exact mem_getAvailableBranches remoteOut localOut b

/-- Claim C4 (counterexample): on a remote listing holding the symbolic HEAD
pointer line and a genuine branch `origin/fix-HEAD-detect`, the code's result
differs from the union the claim describes (the code also discards the
non-symbolic line containing `HEAD`). -/
theorem getAvailableBranches_ne_claim_union :
    getAvailableBranches
        "  origin/HEAD -> origin/main\n  origin/fix-HEAD-detect\n  origin/main\n"
        "* main\n"
      ≠ availableBranchesPerClaim
        "  origin/HEAD -> origin/main\n  origin/fix-HEAD-detect\n  origin/main\n"
        "* main\n" := by decide

/-- Claim C6: `checkRemoteBranchExists` returns `false` on every failure of
the underlying `git branch -r` invocation, whatever its kind, and never
throws; on success it returns whether the output contains
`origin/<name>` as a substring. -/
theorem checkRemoteBranchExists_spec :
    (∀ (f : ExecFailure) (b : String),
        checkRemoteBranchExists (Except.error f) b = false)
    ∧ ∀ (out w b : String),
        checkRemoteBranchExists (Except.ok (out, w)) b
          = jsIncludes out ("origin/" ++ b) :=
  ⟨fun _ _ => rfl, fun _ _ _ => rfl⟩

/-- Claim C10: every name in `getAvailableBranches` comes either from a
listed remote line that does not contain the substring `HEAD` (not merely
the symbolic pointer line), or from the local listing; hence a remote line
containing `HEAD` anywhere contributes nothing. -/
theorem remote_HEAD_excluded (remoteOut localOut b : String)
    (hmem : b ∈ getAvailableBranches remoteOut localOut) :
    (∃ line, line ∈ (jsSplitLines remoteOut).map jsTrim
       ∧ jsIncludes line "HEAD" = false ∧ line ≠ ""
       ∧ b = jsReplaceFirst line "origin/" "")
    ∨ b ∈ getLocalBranches localOut := by
  rcases (mem_getAvailableBranches remoteOut localOut b).mp hmem with h | h
  · left
    rw [getRemoteBranches] at h
    rcases List.mem_map.mp h with ⟨line, hline, rfl⟩
    rcases List.mem_filter.mp hline with ⟨hmem2, hp⟩
    rcases (Bool.and_eq_true _ _).mp hp with ⟨h1, h2⟩
    refine ⟨line, hmem2, by simpa using h2, ?_, rfl⟩
    intro hcon
    rw [hcon] at h1
    simp at h1
  · right
    exact h

/-- Claim C10 witness at a concrete input. -/
theorem remote_HEAD_excluded_witness :
    (∃ line, line ∈ (jsSplitLines "  origin/dev\n").map jsTrim
       ∧ jsIncludes line "HEAD" = false ∧ line ≠ ""
       ∧ "dev" = jsReplaceFirst line "origin/" "")
    ∨ "dev" ∈ getLocalBranches "* main\n" :=
  remote_HEAD_excluded "  origin/dev\n" "* main\n" "dev" (by decide)

/-- Claim C5: whatever the order and number of completion events (timeout
firing, exec callback, exit event, error event, spawn exception), one run of
`executeCommand` settles its promise exactly once, and the timeout timer is
no longer pending afterwards. -/
theorem executeCommand_settles_once (evs : List ExecEvent) (h : evs ≠ []) :
    (runExec evs).settles.length = 1 ∧ (runExec evs).timerActive = false := by
  cases evs with
  | nil => exact absurd rfl h
  | cons e rest =>
    have hi := execStep_init e
    have hrun : runExec (e :: rest) = execStep initExecState e := by
      rw [runExec, List.foldl_cons, foldl_execStep_done _ hi.1 hi.2.1]
    rw [hrun]
    exact ⟨hi.2.2, hi.2.1⟩

/-- Claim C5 witness at a concrete event sequence. -/
theorem executeCommand_settles_once_witness :
    (runExec [ExecEvent.callback none "out" "err"]).settles.length = 1
    ∧ (runExec [ExecEvent.callback none "out" "err"]).timerActive = false :=
  executeCommand_settles_once [ExecEvent.callback none "out" "err"] (by decide)

/-- Claim C1 (code bug evaluation): the child exits with code 0 before the
timeout, the `exit` event is delivered before the `exec` completion callback
(the order Node.js uses), and the promise resolves with empty placeholder
strings instead of the captured stdout/stderr. -/
theorem executeCommand_exit_first_loses_output :
    (runExec [ExecEvent.exited (some 0),
              ExecEvent.callback none "captured out" "captured err"]).settles
      = [Except.ok ("", "")]
    ∧ (Except.ok ("", "") : Except ExecFailure (String × String))
      ≠ Except.ok ("captured out", "captured err") :=
  ⟨rfl, by decide⟩

/-- Claim C2 (amended): remote existence of the target branch gates the pull
step: in every run whose selected target branch does not exist on the
remote, no `git pull` is issued at all. -/
theorem pull_gated_by_remote (env : MergeEnv) (t : String)
    (hT : env.lastSelectedBranch = some t)
    (hno : checkRemoteBranchExists (env.run Cmd.branchR) t = false) :
    ∀ b : String, Cmd.pull b ∉ (mergeToBranch env).trace := by
  intro b
  unfold mergeToBranch runPullStage runMergePushRestore
  repeat' split
  all_goals simp_all

/-- Claim C2 (counterexample): a run whose target branch `develop` is absent
from the remote listing still issues `git push origin develop`; the push
step is not gated by remote existence. -/
theorem push_issued_without_remote :
    checkRemoteBranchExists (envC2.run Cmd.branchR) "develop" = false
    ∧ Cmd.push "develop" ∈ (mergeToBranch envC2).trace := by decide

/-- Claim C2 witness at a concrete environment. -/
theorem pull_gated_by_remote_witness :
    Cmd.pull "develop" ∉ (mergeToBranch envC2).trace :=
  pull_gated_by_remote envC2 "develop" rfl (by decide) "develop"

/-- Claim C8: a run whose resolved current branch equals the selected target
branch fails with the cannot-merge-into-current-branch error and issues no
checkout, pull, merge or push. -/
theorem same_branch_refused (env : MergeEnv) (curOut w t : String)
    (hws : env.hasWorkspace = true)
    (hsc : env.run Cmd.showCurrent = Except.ok (curOut, w))
    (hT : env.lastSelectedBranch = some t)
    (heq : jsTrim curOut = t) :
    (mergeToBranch env).outcome = Outcome.failure "不能合并到当前分支"
    ∧ ∀ b : String,
        Cmd.checkout b ∉ (mergeToBranch env).trace
        ∧ Cmd.pull b ∉ (mergeToBranch env).trace
        ∧ Cmd.merge b ∉ (mergeToBranch env).trace
        ∧ Cmd.push b ∉ (mergeToBranch env).trace := by
  have hsame : env.lastSelectedBranch = some (jsTrim curOut) := by
    rw [heq]
    exact hT
  have hres : mergeToBranch env
      = ⟨Outcome.failure "不能合并到当前分支", [Cmd.showCurrent], false⟩ := by
    simp [mergeToBranch, hws, hsc, hsame]
  rw [hres]
  exact ⟨rfl, fun b => by refine ⟨?_, ?_, ?_, ?_⟩ <;> simp⟩

/-- Claim C8 witness at a concrete environment. -/
theorem same_branch_refused_witness :
    (mergeToBranch envC8).outcome = Outcome.failure "不能合并到当前分支"
    ∧ Cmd.checkout "feature" ∉ (mergeToBranch envC8).trace
    ∧ Cmd.pull "feature" ∉ (mergeToBranch envC8).trace
    ∧ Cmd.merge "feature" ∉ (mergeToBranch envC8).trace
    ∧ Cmd.push "feature" ∉ (mergeToBranch envC8).trace := by
  have h := same_branch_refused envC8 "feature\n" "" "feature" rfl rfl rfl (by decide)
  exact ⟨h.1, (h.2 "feature").1, (h.2 "feature").2.1, (h.2 "feature").2.2.1,
    (h.2 "feature").2.2.2⟩

/-- Claim C7: a run that reaches the working-tree status query and gets any
non-blank output fails with the uncommitted-changes error and issues no
`git checkout` at all. -/
theorem dirty_tree_refused (env : MergeEnv) (curOut w stOut w2 t : String)
    (hws : env.hasWorkspace = true)
    (hsc : env.run Cmd.showCurrent = Except.ok (curOut, w))
    (hT : env.lastSelectedBranch = some t)
    (hne : jsTrim curOut ≠ t)
    (ht0 : t ≠ "")
    (hcf : env.confirmAccepted = true)
    (hst : env.run Cmd.statusPorcelain = Except.ok (stOut, w2))
    (hdirty : jsTrim stOut ≠ "") :
    (mergeToBranch env).outcome = Outcome.failure "有未提交的更改，请先提交或暂存更改"
    ∧ ∀ b : String, Cmd.checkout b ∉ (mergeToBranch env).trace := by
  have hne' : ¬ t = jsTrim curOut := fun h => hne h.symm
  have hres : mergeToBranch env
      = ⟨Outcome.failure "有未提交的更改，请先提交或暂存更改",
          [Cmd.showCurrent, Cmd.branchR, Cmd.statusPorcelain], false⟩ := by
    simp [mergeToBranch, hws, hsc, hne', hT, ht0, hcf, hst, hdirty]
  rw [hres]
  exact ⟨rfl, fun b => by simp⟩

/-- Claim C7 witness at a concrete environment. -/
theorem dirty_tree_refused_witness :
    (mergeToBranch envC7).outcome = Outcome.failure "有未提交的更改，请先提交或暂存更改"
    ∧ Cmd.checkout "develop" ∉ (mergeToBranch envC7).trace := by
  have h := dirty_tree_refused envC7 "feature\n" "" " M a.txt\n" "" "develop"
    rfl rfl rfl (by decide) (by decide) rfl rfl (by decide)
  exact ⟨h.1, h.2 "develop"⟩

/-- Claim C3: in every run that issues the pull of the target branch and in
which that pull fails, the workflow issues a checkout back to the original
branch, issues no merge and no push, and reports a failure. -/
theorem pull_failure_rolls_back (env : MergeEnv) (curOut w t : String)
    (pe : ExecFailure) (r1 : String × String)
    (hws : env.hasWorkspace = true)
    (hsc : env.run Cmd.showCurrent = Except.ok (curOut, w))
    (hT : env.lastSelectedBranch = some t)
    (hne : jsTrim curOut ≠ t)
    (ht0 : t ≠ "")
    (hcf : env.confirmAccepted = true)
    (hst : ∃ st w2, env.run Cmd.statusPorcelain = Except.ok (st, w2) ∧ jsTrim st = "")
    (hco : env.run (Cmd.checkout t) = Except.ok r1)
    (hrem : checkRemoteBranchExists (env.run Cmd.branchR) t = true)
    (hpull : env.run (Cmd.pull t) = Except.error pe) :
    Cmd.pull t ∈ (mergeToBranch env).trace
    ∧ Cmd.checkout (jsTrim curOut) ∈ (mergeToBranch env).trace
    ∧ (∀ b : String, Cmd.merge b ∉ (mergeToBranch env).trace)
    ∧ (∀ b : String, Cmd.push b ∉ (mergeToBranch env).trace)
    ∧ ∃ msg, (mergeToBranch env).outcome = Outcome.failure msg := by
  have hne' : ¬ t = jsTrim curOut := fun h => hne h.symm
  obtain ⟨st, w2, hst', hclean⟩ := hst
  cases hrb : env.run (Cmd.checkout (jsTrim curOut)) with
  | error ce =>
    have hres : mergeToBranch env
        = ⟨Outcome.failure ce.message,
            [Cmd.showCurrent, Cmd.branchR, Cmd.statusPorcelain, Cmd.checkout t,
              Cmd.pull t, Cmd.checkout (jsTrim curOut)], false⟩ := by
      simp [mergeToBranch, runPullStage, hws, hsc, hne', hT, ht0, hcf, hst',
        hclean, hco, hrem, hpull, hrb]
    rw [hres]
    refine ⟨by simp, by simp, fun b => by simp, fun b => by simp, ⟨_, rfl⟩⟩
  | ok r2 =>
    have hres : mergeToBranch env
        = ⟨Outcome.failure ("拉取最新代码失败: " ++ pe.message),
            [Cmd.showCurrent, Cmd.branchR, Cmd.statusPorcelain, Cmd.checkout t,
              Cmd.pull t, Cmd.checkout (jsTrim curOut)], false⟩ := by
      simp [mergeToBranch, runPullStage, hws, hsc, hne', hT, ht0, hcf, hst',
        hclean, hco, hrem, hpull, hrb]
    rw [hres]
    refine ⟨by simp, by simp, fun b => by simp, fun b => by simp, ⟨_, rfl⟩⟩

/-- Claim C3 witness at a concrete environment. -/
theorem pull_failure_rolls_back_witness :
    Cmd.pull "develop" ∈ (mergeToBranch envC3).trace
    ∧ Cmd.checkout (jsTrim "feature\n") ∈ (mergeToBranch envC3).trace
    ∧ Cmd.merge "feature" ∉ (mergeToBranch envC3).trace
    ∧ Cmd.push "develop" ∉ (mergeToBranch envC3).trace
    ∧ ∃ msg, (mergeToBranch envC3).outcome = Outcome.failure msg := by
  have h := pull_failure_rolls_back envC3 "feature\n" "" "develop"
    ExecFailure.timedOut ("", "") rfl rfl rfl (by decide) (by decide) rfl
    ⟨"", "", rfl, rfl⟩ rfl (by decide) rfl
  exact ⟨h.1, h.2.1, h.2.2.1 "feature", h.2.2.2.1 "develop", h.2.2.2.2⟩

/-- Claim C9 (counterexample): a run in which the merge succeeds and the
push fails, but the final checkout back to the original branch also fails,
reports an overall failure rather than success. -/
theorem push_and_restore_failure_not_success :
    envC9.run (Cmd.merge "feature") = Except.ok ("", "")
    ∧ envC9.run (Cmd.push "develop") = Except.error (ExecFailure.cbError "remote rejected")
    ∧ Cmd.merge "feature" ∈ (mergeToBranch envC9).trace
    ∧ (mergeToBranch envC9).outcome = Outcome.failure "checkout failed" := by decide

/-- Claim C9 (amended): in every run in which the merge step succeeds, the
push fails, and the final checkout back to the original branch succeeds,
the workflow checks out back to the original branch, reports overall
success, and surfaces the push failure only as a warning. -/
theorem push_failure_warns_only (env : MergeEnv) (curOut w t : String)
    (pe : ExecFailure) (r1 r2 r3 r4 : String × String)
    (hws : env.hasWorkspace = true)
    (hsc : env.run Cmd.showCurrent = Except.ok (curOut, w))
    (hT : env.lastSelectedBranch = some t)
    (hne : jsTrim curOut ≠ t)
    (ht0 : t ≠ "")
    (hcf : env.confirmAccepted = true)
    (hst : ∃ st w2, env.run Cmd.statusPorcelain = Except.ok (st, w2) ∧ jsTrim st = "")
    (hco : env.run (Cmd.checkout t) = Except.ok r1)
    (hpl : checkRemoteBranchExists (env.run Cmd.branchR) t = false
           ∨ env.run (Cmd.pull t) = Except.ok r3)
    (hmg : env.run (Cmd.merge (jsTrim curOut)) = Except.ok r2)
    (hpush : env.run (Cmd.push t) = Except.error pe)
    (hback : env.run (Cmd.checkout (jsTrim curOut)) = Except.ok r4) :
    (mergeToBranch env).outcome
      = Outcome.success ("成功将 " ++ jsTrim curOut ++ " 合并到 " ++ t)
    ∧ (mergeToBranch env).pushWarned = true
    ∧ Cmd.checkout (jsTrim curOut) ∈ (mergeToBranch env).trace := by
  have hne' : ¬ t = jsTrim curOut := fun h => hne h.symm
  obtain ⟨st, w2, hst', hclean⟩ := hst
  rcases hpl with hnorem | hpullok
  · have hres : mergeToBranch env
        = ⟨Outcome.success ("成功将 " ++ jsTrim curOut ++ " 合并到 " ++ t),
            [Cmd.showCurrent, Cmd.branchR, Cmd.statusPorcelain, Cmd.checkout t,
              Cmd.merge (jsTrim curOut), Cmd.push t, Cmd.checkout (jsTrim curOut)],
            true⟩ := by
      simp [mergeToBranch, runPullStage, runMergePushRestore, hws, hsc, hne',
        hT, ht0, hcf, hst', hclean, hco, hnorem, hmg, hpush, hback]
    rw [hres]
    exact ⟨rfl, rfl, by simp⟩
  · by_cases hrem2 : checkRemoteBranchExists (env.run Cmd.branchR) t = true
    · have hres : mergeToBranch env
          = ⟨Outcome.success ("成功将 " ++ jsTrim curOut ++ " 合并到 " ++ t),
              [Cmd.showCurrent, Cmd.branchR, Cmd.statusPorcelain, Cmd.checkout t,
                Cmd.pull t, Cmd.merge (jsTrim curOut), Cmd.push t,
                Cmd.checkout (jsTrim curOut)], true⟩ := by
        simp [mergeToBranch, runPullStage, runMergePushRestore, hws, hsc, hne',
          hT, ht0, hcf, hst', hclean, hco, hrem2, hpullok, hmg, hpush, hback]
      rw [hres]
      exact ⟨rfl, rfl, by simp⟩
    · have hres : mergeToBranch env
          = ⟨Outcome.success ("成功将 " ++ jsTrim curOut ++ " 合并到 " ++ t),
              [Cmd.showCurrent, Cmd.branchR, Cmd.statusPorcelain, Cmd.checkout t,
                Cmd.merge (jsTrim curOut), Cmd.push t, Cmd.checkout (jsTrim curOut)],
              true⟩ := by
        simp [mergeToBranch, runPullStage, runMergePushRestore, hws, hsc, hne',
          hT, ht0, hcf, hst', hclean, hco, hrem2, hmg, hpush, hback]
      rw [hres]
      exact ⟨rfl, rfl, by simp⟩

/-- Claim C9 witness at a concrete environment. -/
theorem push_failure_warns_only_witness :
    (mergeToBranch envC9w).outcome
      = Outcome.success ("成功将 " ++ jsTrim "feature\n" ++ " 合并到 " ++ "develop")
    ∧ (mergeToBranch envC9w).pushWarned = true
    ∧ Cmd.checkout (jsTrim "feature\n") ∈ (mergeToBranch envC9w).trace := by
  have h := push_failure_warns_only envC9w "feature\n" "" "develop"
    (ExecFailure.cbError "remote rejected") ("", "") ("", "") ("", "") ("", "")
    rfl rfl rfl (by decide) (by decide) rfl ⟨"", "", rfl, rfl⟩ rfl
    (Or.inl (by decide)) rfl rfl rfl
  exact h
